import Mathlib

/-!
# Verification of `openhtf/rundata.py`

A shallow embedding of the run-data module: the `RunData` record (a seven-field
namedtuple), its canonical JSON encoding (`json.dumps` with `sort_keys=True`,
`indent=4`, `separators=(',', ': ')`, and the default `ensure_ascii=True`),
strict decoding (`json.loads` followed by `RunData(**d)`), persistence in a
directory of record files, the process-liveness probe, and directory
enumeration.

JSON numbers are modelled as integers (`cell_count`, `http_port`, `pid` are
integers in the documented format; non-integral numbers are floating point and
outside the embedding), and strings are sequences of Unicode scalar values
(lone surrogates, which CPython's `str` can carry, are outside the embedding).
-/

/-- A JSON value, as produced by `json.loads` / consumed by `json.dumps`.
Object members are kept in insertion order with distinct keys, mirroring a
Python `dict`. -/
inductive JValue where
  | jnull
  | jbool (b : Bool)
  | jint (n : Int)
  | jstr (s : String)
  | jarr (items : List JValue)
  | jobj (members : List (String × JValue))

/-! ## Characters and digits -/

/-- The four JSON whitespace characters (space, tab, linefeed, carriage return). -/
def isJsonWs (c : Char) : Bool :=
  c = ' ' || c = '\t' || c = '\n' || c = '\r'

/-- ASCII decimal digit test. -/
def isDecDigit (c : Char) : Bool :=
  48 ≤ c.toNat && c.toNat ≤ 57

/-- The decimal digit character for `d < 10`. -/
def decChar (d : Nat) : Char := Char.ofNat (48 + d)

/-- The lowercase hexadecimal digit character for `d < 16`. -/
def lhexChar (d : Nat) : Char :=
  if d < 10 then Char.ofNat (48 + d) else Char.ofNat (97 + (d - 10))

/-- Four lowercase hex digits of `n < 0x10000`, most significant first
(the `%04x` rendering used by `\uXXXX` escapes). -/
def lhex4 (n : Nat) : List Char :=
  [lhexChar (n / 4096 % 16), lhexChar (n / 256 % 16), lhexChar (n / 16 % 16), lhexChar (n % 16)]

/-- Decimal digit characters of `n`, most significant first, prepended to
`acc`; `gas` is a structural-recursion bound (any `gas > n` is exact). -/
def decCharsCore : Nat → Nat → List Char → List Char
  | 0, _, acc => acc
  | gas + 1, n, acc =>
    if n < 10 then decChar (n % 10) :: acc
    else decCharsCore gas (n / 10) (decChar (n % 10) :: acc)

/-- Decimal digit characters of a natural number, most significant first. -/
def natChars (n : Nat) : List Char := decCharsCore (n + 1) n []

/-- The characters of `int.__repr__`: an optional minus sign, then decimal
digits (this is how `json.dumps` renders a Python `int`). -/
def intChars (i : Int) : List Char :=
  (if i < 0 then ['-'] else []) ++ natChars i.natAbs

/-! ## String escaping (`json.dumps` with the default `ensure_ascii=True`) -/

/-- How `json.dumps` escapes one character: the two JSON metacharacters, the
five short control escapes, printable ASCII verbatim, and everything else as
`\uXXXX` (astral characters as a surrogate pair). -/
def escapeChar (c : Char) : List Char :=
  if c = '"' then ['\\', '"']
  else if c = '\\' then ['\\', '\\']
  else if c.toNat = 8 then ['\\', 'b']
  else if c.toNat = 9 then ['\\', 't']
  else if c.toNat = 10 then ['\\', 'n']
  else if c.toNat = 12 then ['\\', 'f']
  else if c.toNat = 13 then ['\\', 'r']
  else if 32 ≤ c.toNat ∧ c.toNat ≤ 126 then [c]
  else if c.toNat < 65536 then '\\' :: 'u' :: lhex4 c.toNat
  else
    ('\\' :: 'u' :: lhex4 (55296 + (c.toNat - 65536) / 1024)) ++
    ('\\' :: 'u' :: lhex4 (56320 + (c.toNat - 65536) % 1024))

/-- The escaped body of a JSON string literal. -/
def escChars (s : String) : List Char := s.data.flatMap escapeChar

/-- A rendered JSON string literal: quote, escaped body, quote. -/
def strLit (s : String) : List Char := '"' :: (escChars s ++ ['"'])

/-! ## Sorting object members (`sort_keys=True`) -/

/-- Code-point lexicographic order on character lists, as Python compares
`str` values. -/
def charsLt : List Char → List Char → Bool
  | [], [] => false
  | [], _ :: _ => true
  | _ :: _, [] => false
  | a :: as, b :: bs =>
    if a.toNat < b.toNat then true
    else if b.toNat < a.toNat then false
    else charsLt as bs

/-- Python's `<` on strings. -/
def pyStrLt (a b : String) : Bool := charsLt a.data b.data

/-- Insert a member into a key-sorted member list (stable: an equal key goes
after existing ones, as in Python's stable `sorted`). -/
def insertMem (kv : String × JValue) : List (String × JValue) → List (String × JValue)
  | [] => [kv]
  | hd :: tl => if pyStrLt kv.1 hd.1 then kv :: hd :: tl else hd :: insertMem kv tl

/-- Sort object members by key (what `sort_keys=True` does to each dict). -/
def sortMems : List (String × JValue) → List (String × JValue)
  | [] => []
  | kv :: tl => insertMem kv (sortMems tl)

theorem sizeOf_insertMem (kv : String × JValue) (ms : List (String × JValue)) :
    sizeOf (insertMem kv ms) = 1 + sizeOf kv + sizeOf ms := by
  induction ms with
  | nil => simp [insertMem]
  | cons hd tl ih =>
    simp only [insertMem]
    split <;> simp_arith [ih]

theorem sizeOf_sortMems (ms : List (String × JValue)) :
    sizeOf (sortMems ms) = sizeOf ms := by
  induction ms with
  | nil => rfl
  | cons hd tl ih => simp_arith [sortMems, sizeOf_insertMem, ih]

/-! ## Rendering (`json.dumps(d, sort_keys=True, indent=4, separators=(',', ': '))`) -/

/-- `n` spaces of indentation. -/
def indentSp (lvl : Nat) : List Char := List.replicate (4 * lvl) ' '

/-- The newline-plus-indent that precedes every item at nesting level `lvl`. -/
def nlIndent (lvl : Nat) : List Char := '\n' :: indentSp lvl

mutual
/-- Render one JSON value at nesting level `lvl`, exactly as `json.dumps` does
with `sort_keys=True, indent=4, separators=(',', ': ')` (each object's members
sorted by key; empty containers compact; items one per line). -/
def dumpsVal (lvl : Nat) (v : JValue) : List Char :=
  match v with
  | .jnull => ['n', 'u', 'l', 'l']
  | .jbool true => ['t', 'r', 'u', 'e']
  | .jbool false => ['f', 'a', 'l', 's', 'e']
  | .jint n => intChars n
  | .jstr s => strLit s
  | .jarr items =>
    if items.isEmpty then ['[', ']']
    else '[' :: (dumpsItems (lvl + 1) items ++ nlIndent lvl ++ [']'])
  | .jobj members =>
    if members.isEmpty then ['{', '}']
    else '{' :: (dumpsMems (lvl + 1) (sortMems members) ++ nlIndent lvl ++ ['}'])
termination_by sizeOf v
decreasing_by
  all_goals simp_wf
  all_goals simp_arith [sizeOf_sortMems]
/-- Render array items: newline+indent before each, `,` between. -/
def dumpsItems (lvl : Nat) (l : List JValue) : List Char :=
  match l with
  | [] => []
  | v :: tl => nlIndent lvl ++ (dumpsVal lvl v ++ dumpsItemsTail lvl tl)
termination_by sizeOf l
decreasing_by all_goals simp_wf <;> omega
/-- The remaining array items, each preceded by the `,` item separator. -/
def dumpsItemsTail (lvl : Nat) (l : List JValue) : List Char :=
  match l with
  | [] => []
  | v :: tl => ',' :: (nlIndent lvl ++ (dumpsVal lvl v ++ dumpsItemsTail lvl tl))
termination_by sizeOf l
decreasing_by all_goals simp_wf <;> omega
/-- Render object members: newline+indent, key literal, `: `, value. -/
def dumpsMems (lvl : Nat) (l : List (String × JValue)) : List Char :=
  match l with
  | [] => []
  | (k, v) :: tl =>
    nlIndent lvl ++ (strLit k ++ (':' :: ' ' :: (dumpsVal lvl v ++ dumpsMemsTail lvl tl)))
termination_by sizeOf l
decreasing_by all_goals simp_wf <;> omega
/-- The remaining object members, each preceded by the `,` item separator. -/
def dumpsMemsTail (lvl : Nat) (l : List (String × JValue)) : List Char :=
  match l with
  | [] => []
  | (k, v) :: tl =>
    ',' :: (nlIndent lvl ++ (strLit k ++ (':' :: ' ' :: (dumpsVal lvl v ++ dumpsMemsTail lvl tl))))
termination_by sizeOf l
decreasing_by all_goals simp_wf <;> omega
end

/-- `json.dumps(v, sort_keys=True, indent=4, separators=(',', ': '))`. -/
def jsonDumps (v : JValue) : String := String.mk (dumpsVal 0 v)


/-! ## Parsing (`json.loads`, default strict mode)

The scanner below mirrors CPython's `json` scanner on the float-free fragment:
integers only (a fractional part or exponent, and the `NaN`/`Infinity`
constants, are floating point and outside the embedding), and `\uXXXX` escapes
must denote scalar values (a lone surrogate would need CPython's
surrogate-carrying `str`). -/

/-- Drop leading JSON whitespace. -/
def dropWs : List Char → List Char
  | [] => []
  | c :: cs => if isJsonWs c then dropWs cs else c :: cs

/-- The value of one hexadecimal digit character (case-insensitive). -/
def hexVal (c : Char) : Option Nat :=
  if 48 ≤ c.toNat ∧ c.toNat ≤ 57 then some (c.toNat - 48)
  else if 97 ≤ c.toNat ∧ c.toNat ≤ 102 then some (c.toNat - 87)
  else if 65 ≤ c.toNat ∧ c.toNat ≤ 70 then some (c.toNat - 55)
  else none

/-- Decode one short backslash escape. -/
def unescapeChar (c : Char) : Option Char :=
  if c = '"' then some '"'
  else if c = '\\' then some '\\'
  else if c = '/' then some '/'
  else if c = 'b' then some (Char.ofNat 8)
  else if c = 'f' then some (Char.ofNat 12)
  else if c = 'n' then some '\n'
  else if c = 'r' then some '\r'
  else if c = 't' then some '\t'
  else none

/-- Decode one backslash escape (the characters after the `\\`): a short
escape, or `\uXXXX` with surrogate-pair combining. Returns the decoded
character and the remaining input. -/
def decodeEsc : List Char → Option (Char × List Char)
  | [] => none
  | e :: rest =>
    if e = 'u' then
      match rest with
      | h1 :: h2 :: h3 :: h4 :: rest2 =>
        (match hexVal h1, hexVal h2, hexVal h3, hexVal h4 with
         | some a, some b, some x, some d =>
           let n := ((a * 16 + b) * 16 + x) * 16 + d
           if n < 55296 then some (Char.ofNat n, rest2)
           else if n ≤ 56319 then
             match rest2 with
             | '\\' :: 'u' :: g1 :: g2 :: g3 :: g4 :: rest3 =>
               (match hexVal g1, hexVal g2, hexVal g3, hexVal g4 with
                | some a2, some b2, some x2, some d2 =>
                  let m := ((a2 * 16 + b2) * 16 + x2) * 16 + d2
                  if 56320 ≤ m ∧ m ≤ 57343 then
                    some (Char.ofNat (65536 + (n - 55296) * 1024 + (m - 56320)), rest3)
                  else none
                | _, _, _, _ => none)
             | _ => none
           else if n ≤ 57343 then none
           else some (Char.ofNat n, rest2)
         | _, _, _, _ => none)
      | _ => none
    else (unescapeChar e).map fun ch => (ch, rest)

theorem decodeEsc_length {l : List Char} {ch : Char} {r : List Char}
    (h : decodeEsc l = some (ch, r)) : r.length < l.length := by
  match l with
  | [] => simp [decodeEsc] at h
  | e :: rest =>
    simp only [decodeEsc] at h
    repeat' split at h
    all_goals simp_all
    all_goals try omega
    obtain ⟨a, -, -, rfl⟩ := h
    simp

/-- Scan a string body after the opening quote (CPython `py_scanstring`,
strict mode: raw control characters are rejected; escapes decoded by
`decodeEsc`). `fuel` is a structural-recursion bound; every call site passes
at least the input length plus one, which by `decodeEsc_length` is never
exhausted. -/
def scanString : Nat → List Char → List Char → Option (String × List Char)
  | 0, _, _ => none
  | fuel + 1, acc, l =>
    match l with
    | [] => none
    | c :: rest =>
      if c = '"' then some (String.mk acc.reverse, rest)
      else if c = '\\' then
        match decodeEsc rest with
        | some (ch, rest2) => scanString fuel (ch :: acc) rest2
        | none => none
      else if c.toNat < 32 then none
      else scanString fuel (c :: acc) rest

/-- Split a leading run of decimal digits from the rest. -/
def splitDigits : List Char → List Char × List Char
  | [] => ([], [])
  | c :: cs =>
    if isDecDigit c then
      let (ds, r) := splitDigits cs
      (c :: ds, r)
    else ([], c :: cs)

/-- The natural number denoted by a digit run. -/
def digitsNat (ds : List Char) : Nat :=
  ds.foldl (fun acc c => acc * 10 + (c.toNat - 48)) 0

/-- Scan an unsigned JSON integer: `0`, or a nonzero digit followed by more
digits (the `0|[1-9]\d*` integer part of CPython's NUMBER_RE; after a leading
`0` no further digits are consumed). -/
def scanUInt : List Char → Option (Nat × List Char)
  | [] => none
  | c :: rest =>
    if c = '0' then some (0, rest)
    else if isDecDigit c then
      let (ds, r) := splitDigits rest
      some (digitsNat (c :: ds), r)
    else none

/-- Scan a signed JSON integer (optional `-`, then `scanUInt`). -/
def scanInt : List Char → Option (Int × List Char)
  | [] => none
  | c :: rest =>
    if c = '-' then (scanUInt rest).map fun p => (-(p.1 : Int), p.2)
    else (scanUInt (c :: rest)).map fun p => ((p.1 : Int), p.2)

/-- Update key `k` in a Python dict (association list): replace the value at
an existing key in place, else append a new entry at the end. -/
def dictSet (kvs : List (String × JValue)) (k : String) (v : JValue) :
    List (String × JValue) :=
  match kvs with
  | [] => [(k, v)]
  | (k', v') :: tl => if k' = k then (k', v) :: tl else (k', v') :: dictSet tl k v

/-- Look up key `k` in a dict. -/
def dictGet (kvs : List (String × JValue)) (k : String) : Option JValue :=
  match kvs with
  | [] => none
  | (k', v') :: tl => if k' = k then some v' else dictGet tl k

/-- The dict built by inserting the scanned member pairs in order (a duplicate
key keeps its first position but takes the later value, as in Python). -/
def pairsToDict (pairs : List (String × JValue)) : List (String × JValue) :=
  pairs.foldl (fun d kv => dictSet d kv.1 kv.2) []

mutual
/-- Scan one JSON value after optional whitespace, dispatching on the first
character as CPython's scanner does. `fuel` is a structural-recursion bound,
decremented on every mutual call; `jsonLoads` supplies more than any input can
consume. -/
def scanValue : Nat → List Char → Option (JValue × List Char)
  | 0, _ => none
  | fuel + 1, cs =>
    match dropWs cs with
    | [] => none
    | c :: rest =>
      if c = '"' then
        match scanString (rest.length + 1) [] rest with
        | some (s, r) => some (.jstr s, r)
        | none => none
      else if c = '{' then
        match dropWs rest with
        | [] => none
        | c2 :: rest2 =>
          if c2 = '}' then some (.jobj [], rest2)
          else
            match scanMembers fuel (c2 :: rest2) with
            | some (pairs, r) => some (.jobj (pairsToDict pairs), r)
            | none => none
      else if c = '[' then
        match dropWs rest with
        | [] => none
        | c2 :: rest2 =>
          if c2 = ']' then some (.jarr [], rest2)
          else
            match scanItems fuel (c2 :: rest2) with
            | some (items, r) => some (.jarr items, r)
            | none => none
      else if c = 'n' then
        match rest with
        | 'u' :: 'l' :: 'l' :: r => some (.jnull, r)
        | _ => none
      else if c = 't' then
        match rest with
        | 'r' :: 'u' :: 'e' :: r => some (.jbool true, r)
        | _ => none
      else if c = 'f' then
        match rest with
        | 'a' :: 'l' :: 's' :: 'e' :: r => some (.jbool false, r)
        | _ => none
      else if c = '-' ∨ isDecDigit c then
        match scanInt (c :: rest) with
        | some (n, r) => some (.jint n, r)
        | none => none
      else none
/-- Scan one-or-more comma-separated array items up to the closing `]`. -/
def scanItems : Nat → List Char → Option (List JValue × List Char)
  | 0, _ => none
  | fuel + 1, cs =>
    match scanValue fuel cs with
    | none => none
    | some (v, r) =>
      match dropWs r with
      | [] => none
      | c :: r1 =>
        if c = ',' then
          match scanItems fuel r1 with
          | some (vs, r2) => some (v :: vs, r2)
          | none => none
        else if c = ']' then some ([v], r1)
        else none
/-- Scan one-or-more comma-separated `"key": value` members up to the
closing `}`. -/
def scanMembers : Nat → List Char → Option (List (String × JValue) × List Char)
  | 0, _ => none
  | fuel + 1, cs =>
    match dropWs cs with
    | [] => none
    | c :: r =>
      if c = '"' then
        match scanString (r.length + 1) [] r with
        | none => none
        | some (k, r1) =>
          match dropWs r1 with
          | [] => none
          | c2 :: r2 =>
            if c2 = ':' then
              match scanValue fuel r2 with
              | none => none
              | some (v, r3) =>
                match dropWs r3 with
                | [] => none
                | c3 :: r4 =>
                  if c3 = ',' then
                    match scanMembers fuel r4 with
                    | some (ms, r5) => some ((k, v) :: ms, r5)
                    | none => none
                  else if c3 = '}' then some ([(k, v)], r4)
                  else none
            else none
      else none
end

/-- `json.loads`: scan one value, then require only trailing whitespace.
`none` is `json.JSONDecodeError` (a `ValueError`). -/
def jsonLoads (s : String) : Option JValue :=
  match scanValue (2 * s.data.length + 2) s.data with
  | some (v, rest) => if dropWs rest = [] then some v else none
  | none => none

/-! ## The `RunData` record -/

/-- The Python error kinds this module can raise. -/
inductive PyErr where
  /-- `json.JSONDecodeError` (a `ValueError`) from `json.loads`. -/
  | jsonDecodeError
  /-- `TypeError`: `cls(**d)` with a wrong key set or a non-mapping, or an
  operation applied to a value of the wrong type. -/
  | typeError
  /-- `OSError` (`IOError`): missing file, or opening a directory. -/
  | ioError
deriving DecidableEq

/-- `RunData`, the seven-field namedtuple. Fields hold whatever JSON values
the decoded dict carried (the namedtuple constructor does not check types). -/
structure RunData where
  station_name : JValue
  cell_count : JValue
  test_type : JValue
  test_version : JValue
  http_host : JValue
  http_port : JValue
  pid : JValue

/-- The namedtuple's field names, in declaration order. -/
def runDataFields : List String :=
  ["station_name", "cell_count", "test_type", "test_version", "http_host", "http_port", "pid"]

/-- `self._asdict()`: the field dict, in field declaration order. -/
def RunData.asdict (r : RunData) : List (String × JValue) :=
  [("station_name", r.station_name), ("cell_count", r.cell_count),
   ("test_type", r.test_type), ("test_version", r.test_version),
   ("http_host", r.http_host), ("http_port", r.http_port), ("pid", r.pid)]

/-- `RunData.AsJson`: `d = self._asdict(); d['http_host'] = self.http_host;
json.dumps(d, sort_keys=True, indent=4, separators=(',', ': '))`. -/
def RunData.AsJson (r : RunData) : String :=
  jsonDumps (.jobj (dictSet r.asdict "http_host" r.http_host))

/-- `cls(**d)`: succeeds exactly when the dict's key set is the seven field
names (a missing field or an unexpected keyword is a `TypeError`). -/
def RunData.fromDict (kvs : List (String × JValue)) : Except PyErr RunData :=
  match dictGet kvs "station_name", dictGet kvs "cell_count", dictGet kvs "test_type",
      dictGet kvs "test_version", dictGet kvs "http_host", dictGet kvs "http_port",
      dictGet kvs "pid" with
  | some sn, some cc, some tt, some tv, some hh, some hp, some pd =>
    if kvs.all fun kv => runDataFields.contains kv.1 then
      .ok ⟨sn, cc, tt, tv, hh, hp, pd⟩
    else .error .typeError
  | _, _, _, _, _, _, _ => .error .typeError

/-- The body of `RunData.FromFile` once the file's text is in hand:
`d = json.loads(data); return cls(**d)`. A non-object value makes `cls(**d)`
raise `TypeError` (argument after ** must be a mapping). -/
def RunData.fromJsonText (data : String) : Except PyErr RunData :=
  match jsonLoads data with
  | none => .error .jsonDecodeError
  | some (.jobj kvs) => RunData.fromDict kvs
  | some _ => .error .typeError

/-! ## The filesystem model

One directory, as `os.listdir` exposes it: its direct children in listing
order, each a regular file with known text content or a subdirectory. -/

/-- A direct child of the run directory. -/
inductive FsEntry where
  /-- A regular file and its text content. -/
  | file (content : String)
  /-- A child directory (`os.path.isfile` is false; `open` raises `OSError`). -/
  | subdir

/-- A directory state: children as `(name, entry)` in `os.listdir` order. -/
abbrev FsDir := List (String × FsEntry)

/-- Look up a child by name. -/
def findEntry (d : FsDir) (name : String) : Option FsEntry :=
  match d with
  | [] => none
  | (n, e) :: tl => if n = name then some e else findEntry tl name

/-- Create or overwrite the regular file `name` (an existing entry keeps its
listing position; a new file is listed last). -/
def writeEntry (d : FsDir) (name : String) (content : String) : FsDir :=
  match d with
  | [] => [(name, .file content)]
  | (n, e) :: tl =>
    if n = name then (n, .file content) :: tl else (n, e) :: writeEntry tl name content

/-- POSIX `os.path.join(a, b)` for two components. -/
def osPathJoin (a b : String) : String :=
  if b.startsWith "/" then b
  else if a = "" ∨ a.endsWith "/" then a ++ b
  else a ++ "/" ++ b

/-- `RunData.FromFile`: open the named child, read it, decode it. A missing
file or a directory child is an `OSError` from `open`. -/
def RunData.FromFile (d : FsDir) (name : String) : Except PyErr RunData :=
  match findEntry d name with
  | some (.file content) => RunData.fromJsonText content
  | some .subdir => .error .ioError
  | none => .error .ioError

/-- `RunData.SaveToFile`: `filename = os.path.join(directory, self.station_name)`,
write `self.AsJson()` there, return the filename. `os.path.join` raises
`TypeError` on a non-string component; `open(filename, 'w')` raises `OSError`
if the target is an existing directory. -/
def RunData.SaveToFile (r : RunData) (directory : String) (d : FsDir) :
    Except PyErr (String × FsDir) :=
  match r.station_name with
  | .jstr name =>
    match findEntry d name with
    | some .subdir => .error .ioError
    | _ => .ok (osPathJoin directory name, writeEntry d name r.AsJson)
  | _ => .error .typeError

/-- `os.kill(pid, 0)`: succeeds when a process (or process group) that can be
signalled exists for `pid`, else raises `OSError`; `livePids` is the set of
pid values the OS would accept. -/
def osKill (livePids : List Int) (p : Int) : Except PyErr Unit :=
  if p ∈ livePids then .ok () else .error .ioError

/-- `RunData.IsAlive`: probe with `os.kill(self.pid, 0)`, turning an `OSError`
into `False` and success into `True`. (A non-integer pid raises `TypeError`,
which the `except OSError` clause does not catch.) -/
def RunData.IsAlive (livePids : List Int) (r : RunData) : Except PyErr Bool :=
  match r.pid with
  | .jint p =>
    match osKill livePids p with
    | .ok _ => .ok true
    | .error _ => .ok false
  | _ => .error .typeError

/-- `EnumerateRunDirectory`: list the directory, keep the regular files, and
`FromFile` each one in listing order; the comprehension stops at the first
failure and its error propagates. -/
def EnumerateRunDirectory (d : FsDir) : Except PyErr (List RunData) :=
  match d with
  | [] => .ok []
  | (_, .subdir) :: tl => EnumerateRunDirectory tl
  | (_, .file content) :: tl =>
    match RunData.fromJsonText content with
    | .error e => .error e
    | .ok r =>
      match EnumerateRunDirectory tl with
      | .error e => .error e
      | .ok rs => .ok (r :: rs)

/-- A schema-conforming record: the string fields hold JSON strings and the
integer fields hold JSON integers, as the documented file format requires. -/
def RunData.SchemaValid (r : RunData) : Prop :=
  (∃ s, r.station_name = .jstr s) ∧ (∃ n, r.cell_count = .jint n) ∧
  (∃ s, r.test_type = .jstr s) ∧ (∃ s, r.test_version = .jstr s) ∧
  (∃ s, r.http_host = .jstr s) ∧ (∃ n, r.http_port = .jint n) ∧
  (∃ n, r.pid = .jint n)

/-! ## Integer codec round trip -/

/-- Input that cannot extend a digit run: empty, or headed by a non-digit.
Every character that follows a rendered integer in `dumpsVal` output (`,`,
`\n`, `]`, `}`) qualifies. -/
def digitFree : List Char → Bool
  | [] => true
  | c :: _ => !isDecDigit c

theorem decCharsCore_gas (n : Nat) : ∀ g h : Nat, ∀ acc : List Char, n < g → n < h →
    decCharsCore g n acc = decCharsCore h n acc := by
  induction n using Nat.strong_induction_on with
  | _ n ih =>
    intro g h acc hg hh
    cases g with
    | zero => omega
    | succ g =>
      cases h with
      | zero => omega
      | succ h =>
        simp only [decCharsCore]
        by_cases h10 : n < 10
        · simp [h10]
        · have hdiv : n / 10 < n := Nat.div_lt_self (by omega) (by omega)
          simp only [if_neg h10]
          exact ih (n / 10) hdiv g h _ (by omega) (by omega)

theorem decCharsCore_natChars (n : Nat) : ∀ g : Nat, ∀ acc : List Char, n < g →
    decCharsCore g n acc = natChars n ++ acc := by
  induction n using Nat.strong_induction_on with
  | _ n ih =>
    intro g acc hg
    cases g with
    | zero => omega
    | succ g =>
      by_cases h10 : n < 10
      · simp [decCharsCore, natChars, h10]
      · have hdiv : n / 10 < n := Nat.div_lt_self (by omega) (by omega)
        have hstep : decCharsCore (g + 1) n acc
            = decCharsCore g (n / 10) (decChar (n % 10) :: acc) := by
          simp [decCharsCore, h10]
        have hbase : natChars n = natChars (n / 10) ++ [decChar (n % 10)] := by
          have : decCharsCore (n + 1) n [] = decCharsCore n (n / 10) (decChar (n % 10) :: []) := by
            simp [decCharsCore, h10]
          rw [natChars, this, ih (n / 10) hdiv n _ (by omega)]
        rw [hstep, ih (n / 10) hdiv g _ (by omega), hbase, List.append_assoc]
        rfl

/-- One unfolding of `natChars`, last digit peeled off. -/
theorem natChars_step (n : Nat) :
    natChars n = (if n < 10 then [] else natChars (n / 10)) ++ [decChar (n % 10)] := by
  by_cases h10 : n < 10
  · simp [natChars, decCharsCore, h10]
  · have hdiv : n / 10 < n := Nat.div_lt_self (by omega) (by omega)
    have : decCharsCore (n + 1) n [] = decCharsCore n (n / 10) (decChar (n % 10) :: []) := by
      simp [decCharsCore, h10]
    rw [natChars, this, decCharsCore_natChars (n / 10) n _ (by omega), if_neg h10]

theorem decChar_toNat (d : Nat) (h : d < 10) : (decChar d).toNat = 48 + d := by
  interval_cases d <;> decide

theorem decChar_digit (d : Nat) (h : d < 10) : isDecDigit (decChar d) = true := by
  interval_cases d <;> decide

theorem natChars_ne_nil (n : Nat) : natChars n ≠ [] := by
  rw [natChars_step]
  simp

theorem natChars_digits (n : Nat) : ∀ c ∈ natChars n, isDecDigit c = true := by
  induction n using Nat.strong_induction_on with
  | _ n ih =>
    intro c hc
    rw [natChars_step] at hc
    rcases List.mem_append.1 hc with h | h
    · by_cases h10 : n < 10
      · simp [h10] at h
      · have hdiv : n / 10 < n := Nat.div_lt_self (by omega) (by omega)
        exact ih (n / 10) hdiv c (by simpa [h10] using h)
    · rw [List.mem_singleton] at h
      subst h
      exact decChar_digit _ (Nat.mod_lt _ (by omega))

theorem natChars_head_pos (n : Nat) (hn : 0 < n) :
    ∃ c t, natChars n = c :: t ∧ isDecDigit c = true ∧ c ≠ '0' := by
  induction n using Nat.strong_induction_on with
  | _ n ih =>
    by_cases h10 : n < 10
    · refine ⟨decChar (n % 10), [], ?_, decChar_digit _ (Nat.mod_lt _ (by omega)), ?_⟩
      · rw [natChars_step, if_pos h10]; rfl
      · intro h
        have := decChar_toNat (n % 10) (Nat.mod_lt _ (by omega))
        rw [h] at this
        simp only [show ('0').toNat = 48 from rfl] at this
        omega
    · have hdiv : n / 10 < n := Nat.div_lt_self (by omega) (by omega)
      obtain ⟨c, t, hct, hdig, h0⟩ := ih (n / 10) hdiv (by omega)
      exact ⟨c, t ++ [decChar (n % 10)], by rw [natChars_step, if_neg h10, hct]; rfl, hdig, h0⟩

theorem digitsNat_append_one (ds : List Char) (d : Char) :
    digitsNat (ds ++ [d]) = digitsNat ds * 10 + (d.toNat - 48) := by
  simp [digitsNat, List.foldl_append]

theorem digitsNat_natChars (n : Nat) : digitsNat (natChars n) = n := by
  induction n using Nat.strong_induction_on with
  | _ n ih =>
    rw [natChars_step]
    by_cases h10 : n < 10
    · rw [if_pos h10, List.nil_append]
      have := decChar_toNat (n % 10) (Nat.mod_lt _ (by omega))
      simp [digitsNat, this]
      omega
    · have hdiv : n / 10 < n := Nat.div_lt_self (by omega) (by omega)
      rw [if_neg h10, digitsNat_append_one, ih (n / 10) hdiv,
        decChar_toNat _ (Nat.mod_lt _ (by omega))]
      omega

theorem splitDigits_stop (cs : List Char) (h : digitFree cs = true) :
    splitDigits cs = ([], cs) := by
  match cs with
  | [] => rfl
  | c :: t =>
    simp only [digitFree, Bool.not_eq_true'] at h
    simp [splitDigits, h]

theorem splitDigits_run (ds : List Char) (hds : ∀ c ∈ ds, isDecDigit c = true)
    (rest : List Char) (hrest : digitFree rest = true) :
    splitDigits (ds ++ rest) = (ds, rest) := by
  induction ds with
  | nil => simpa using splitDigits_stop rest hrest
  | cons c t ih =>
    have hc : isDecDigit c = true := hds c (by simp)
    have ht := ih fun x hx => hds x (by simp [hx])
    simp [splitDigits, hc, ht]

theorem scanUInt_natChars (n : Nat) (rest : List Char) (hr : digitFree rest = true) :
    scanUInt (natChars n ++ rest) = some (n, rest) := by
  by_cases h0 : n = 0
  · subst h0
    show scanUInt ('0' :: rest) = some (0, rest)
    simp [scanUInt]
  · obtain ⟨c, t, hct, hdig, hc0⟩ := natChars_head_pos n (by omega)
    have htd : ∀ x ∈ t, isDecDigit x = true := fun x hx =>
      natChars_digits n x (by rw [hct]; exact List.mem_cons_of_mem _ hx)
    have hsplit : splitDigits (t ++ rest) = (t, rest) := splitDigits_run t htd rest hr
    have hval : digitsNat (c :: t) = n := by
      have := digitsNat_natChars n
      rwa [hct] at this
    rw [hct, List.cons_append]
    simp [scanUInt, hc0, hdig, hsplit, hval]

theorem digit_ne_minus {c : Char} (h : isDecDigit c = true) : c ≠ '-' := by
  intro hc
  subst hc
  simp [isDecDigit] at h

theorem scanInt_intChars (i : Int) (rest : List Char) (hr : digitFree rest = true) :
    scanInt (intChars i ++ rest) = some (i, rest) := by
  by_cases hneg : i < 0
  · have harg : intChars i ++ rest = '-' :: (natChars i.natAbs ++ rest) := by
      simp [intChars, hneg]
    rw [harg]
    have hmap : ((i.natAbs : Int)) = -i := by omega
    simp [scanInt, scanUInt_natChars i.natAbs rest hr, hmap]
  · have harg : intChars i ++ rest = natChars i.natAbs ++ rest := by
      simp [intChars, hneg]
    rw [harg]
    obtain ⟨c, t, hct, hdig, _⟩ :
        ∃ c t, natChars i.natAbs = c :: t ∧ isDecDigit c = true ∧ True := by
      match h : natChars i.natAbs with
      | [] => exact absurd h (natChars_ne_nil _)
      | c :: t => exact ⟨c, t, rfl, natChars_digits _ c (h ▸ List.mem_cons_self ..), trivial⟩
    have hmap : ((i.natAbs : Int)) = i := by omega
    have := scanUInt_natChars i.natAbs rest hr
    rw [hct] at this ⊢
    rw [List.cons_append] at this ⊢
    simp [scanInt, digit_ne_minus hdig, this, hmap]

/-! ## String codec round trip -/

theorem hexVal_lhexChar (d : Nat) (h : d < 16) : hexVal (lhexChar d) = some d := by
  interval_cases d <;> decide

theorem decodeEsc_u_bmp (n : Nat) (rest : List Char)
    (h16 : n < 65536) (hsur : n < 55296 ∨ 57343 < n) :
    decodeEsc ('u' :: (lhex4 n ++ rest)) = some (Char.ofNat n, rest) := by
  have ha := hexVal_lhexChar (n / 4096 % 16) (by omega)
  have hb := hexVal_lhexChar (n / 256 % 16) (by omega)
  have hx := hexVal_lhexChar (n / 16 % 16) (by omega)
  have hd := hexVal_lhexChar (n % 16) (by omega)
  have hrec : ((n / 4096 % 16 * 16 + n / 256 % 16) * 16 + n / 16 % 16) * 16 + n % 16 = n := by
    omega
  rcases hsur with hlt | hgt
  · simp [decodeEsc, lhex4, ha, hb, hx, hd, hrec, hlt]
  · have h1 : ¬ n < 55296 := by omega
    have h2 : ¬ n ≤ 56319 := by omega
    have h3 : ¬ n ≤ 57343 := by omega
    simp [decodeEsc, lhex4, ha, hb, hx, hd, hrec, h1, h2, h3]

theorem decodeEsc_u_pair (v : Nat) (rest : List Char) (hv : v < 1048576) :
    decodeEsc ('u' :: (lhex4 (55296 + v / 1024)
        ++ ('\\' :: 'u' :: lhex4 (56320 + v % 1024) ++ rest)))
      = some (Char.ofNat (65536 + v), rest) := by
  have ha := hexVal_lhexChar ((55296 + v / 1024) / 4096 % 16) (by omega)
  have hb := hexVal_lhexChar ((55296 + v / 1024) / 256 % 16) (by omega)
  have hx := hexVal_lhexChar ((55296 + v / 1024) / 16 % 16) (by omega)
  have hd := hexVal_lhexChar ((55296 + v / 1024) % 16) (by omega)
  have ha2 := hexVal_lhexChar ((56320 + v % 1024) / 4096 % 16) (by omega)
  have hb2 := hexVal_lhexChar ((56320 + v % 1024) / 256 % 16) (by omega)
  have hx2 := hexVal_lhexChar ((56320 + v % 1024) / 16 % 16) (by omega)
  have hd2 := hexVal_lhexChar ((56320 + v % 1024) % 16) (by omega)
  have hrec1 : (((55296 + v / 1024) / 4096 % 16 * 16 + (55296 + v / 1024) / 256 % 16) * 16
      + (55296 + v / 1024) / 16 % 16) * 16 + (55296 + v / 1024) % 16 = 55296 + v / 1024 := by
    omega
  have hrec2 : (((56320 + v % 1024) / 4096 % 16 * 16 + (56320 + v % 1024) / 256 % 16) * 16
      + (56320 + v % 1024) / 16 % 16) * 16 + (56320 + v % 1024) % 16 = 56320 + v % 1024 := by
    omega
  have hr1 : ¬ 55296 + v / 1024 < 55296 := by omega
  have hr2 : 55296 + v / 1024 ≤ 56319 := by omega
  have hr3 : 56320 ≤ 56320 + v % 1024 ∧ 56320 + v % 1024 ≤ 57343 := by omega
  have hcomb : 65536 + (55296 + v / 1024 - 55296) * 1024 + (56320 + v % 1024 - 56320)
      = 65536 + v := by omega
  have hsplit : 65536 + v / 1024 * 1024 + v % 1024 = 65536 + v := by omega
  simp [decodeEsc, lhex4, ha, hb, hx, hd, ha2, hb2, hx2, hd2, hrec1, hrec2, hr1, hr2, hr3,
    hcomb, hsplit]

/-- The scalar-value range of `Char`, stated on `toNat`. -/
theorem char_valid_range (c : Char) :
    c.toNat < 55296 ∨ (57343 < c.toNat ∧ c.toNat < 1114112) := c.valid

theorem scanString_plain_step (f : Nat) (acc : List Char) (c : Char) (rest : List Char)
    (h1 : ¬ c = '"') (h2 : ¬ c = '\\') (h3 : ¬ c.toNat < 32) :
    scanString (f + 1) acc (c :: rest) = scanString f (c :: acc) rest := by
  rw [scanString]
  simp only [if_neg h1, if_neg h2, if_neg h3]

/-- One escaped source character is consumed in one scanner step. -/
theorem scanString_escapeChar (c : Char) (f : Nat) (acc rest : List Char) :
    scanString (f + 1) acc (escapeChar c ++ rest) = scanString f (c :: acc) rest := by
  by_cases h1 : c = '"'
  · subst h1; rfl
  by_cases h2 : c = '\\'
  · subst h2; rfl
  by_cases h8 : c.toNat = 8
  · have hc : c = Char.ofNat 8 := by rw [← h8, Char.ofNat_toNat]
    subst hc; rfl
  by_cases h9 : c.toNat = 9
  · have hc : c = Char.ofNat 9 := by rw [← h9, Char.ofNat_toNat]
    subst hc; rfl
  by_cases h10 : c.toNat = 10
  · have hc : c = Char.ofNat 10 := by rw [← h10, Char.ofNat_toNat]
    subst hc; rfl
  by_cases h12 : c.toNat = 12
  · have hc : c = Char.ofNat 12 := by rw [← h12, Char.ofNat_toNat]
    subst hc; rfl
  by_cases h13 : c.toNat = 13
  · have hc : c = Char.ofNat 13 := by rw [← h13, Char.ofNat_toNat]
    subst hc; rfl
  by_cases hp : 32 ≤ c.toNat ∧ c.toNat ≤ 126
  · have hesc : escapeChar c = [c] := by
      simp [escapeChar, h1, h2, h8, h9, h10, h12, h13, hp]
    rw [hesc, List.cons_append, List.nil_append]
    exact scanString_plain_step f acc c rest h1 h2 (by omega)
  · by_cases hbmp : c.toNat < 65536
    · have hesc : escapeChar c = '\\' :: 'u' :: lhex4 c.toNat := by
        simp [escapeChar, h1, h2, h8, h9, h10, h12, h13, hp, hbmp]
      have hsur : c.toNat < 55296 ∨ 57343 < c.toNat := by
        rcases char_valid_range c with hv | hv
        · left; exact hv
        · right; omega
      have hdec := decodeEsc_u_bmp c.toNat rest hbmp hsur
      rw [hesc]
      show scanString (f + 1) acc ('\\' :: ('u' :: (lhex4 c.toNat ++ rest)))
        = scanString f (c :: acc) rest
      rw [scanString]
      simp [hdec, Char.ofNat_toNat]
    · have hval : c.toNat - 65536 < 1048576 := by
        rcases char_valid_range c with hv | hv
        · omega
        · omega
      have hesc : escapeChar c
          = '\\' :: ('u' :: (lhex4 (55296 + (c.toNat - 65536) / 1024)
              ++ ('\\' :: 'u' :: lhex4 (56320 + (c.toNat - 65536) % 1024)))) := by
        simp [escapeChar, h1, h2, h8, h9, h10, h12, h13, hp, hbmp]
      have hdec := decodeEsc_u_pair (c.toNat - 65536) rest hval
      have hchar : (65536 + (c.toNat - 65536)) = c.toNat := by omega
      rw [hesc]
      show scanString (f + 1) acc ('\\' :: (('u' :: (lhex4 (55296 + (c.toNat - 65536) / 1024)
          ++ ('\\' :: 'u' :: lhex4 (56320 + (c.toNat - 65536) % 1024)))) ++ rest))
        = scanString f (c :: acc) rest
      rw [scanString]
      simp only [List.cons_append, List.append_assoc] at hdec ⊢
      simp [hdec, hchar, Char.ofNat_toNat]

/-- Scanning an escaped run stops exactly at the closing quote. -/
theorem scanString_escRun (cs : List Char) : ∀ f : Nat, ∀ acc rest : List Char,
    cs.length ≤ f →
    scanString (f + 1) acc (cs.flatMap escapeChar ++ ('"' :: rest))
      = some (String.mk (acc.reverse ++ cs), rest) := by
  induction cs with
  | nil => intro f acc rest _; simp [scanString]
  | cons c tl ih =>
    intro f acc rest hf
    rw [List.flatMap_cons, List.append_assoc]
    match f, hf with
    | g + 1, hf =>
      rw [scanString_escapeChar c (g + 1) acc _]
      rw [ih g (c :: acc) rest (by simpa using hf)]
      simp

/-- Each character escapes to at least one character. -/
theorem escapeChar_ne_nil (c : Char) : 1 ≤ (escapeChar c).length := by
  rw [escapeChar]
  split_ifs <;> simp [lhex4]

theorem length_le_escChars (cs : List Char) : cs.length ≤ (cs.flatMap escapeChar).length := by
  induction cs with
  | nil => simp
  | cons c tl ih =>
    rw [List.flatMap_cons, List.length_append]
    have := escapeChar_ne_nil c
    simp only [List.length_cons]
    omega

/-- The string-literal codec round trip, at the scanner entry point used by
`scanValue` and `scanMembers`: fuel is the remaining input length plus one. -/
theorem scanString_strLit (s : String) (rest : List Char) :
    scanString ((escChars s ++ ('"' :: rest)).length + 1) [] (escChars s ++ ('"' :: rest))
      = some (s, rest) := by
  have hlen : s.data.length ≤ (escChars s ++ ('"' :: rest)).length := by
    rw [List.length_append]
    have := length_le_escChars s.data
    simp only [escChars]
    omega
  simp only [escChars]
  rw [scanString_escRun s.data _ [] rest (by simpa [escChars] using hlen)]
  simp

/-! ## Value-scanner step lemmas -/

theorem dropWs_nws {c : Char} (l : List Char) (h : isJsonWs c = false) :
    dropWs (c :: l) = c :: l := by
  simp [dropWs, h]

theorem scanValue_quote (f : Nat) (X : List Char) :
    scanValue (f + 1) ('"' :: X)
      = (match scanString (X.length + 1) [] X with
         | some (s, r) => some (.jstr s, r)
         | none => none) := by
  rw [scanValue, dropWs_nws X (by decide)]
  rfl

theorem scanValue_jstr (f : Nat) (s : String) (rest : List Char) :
    scanValue (f + 1) (strLit s ++ rest) = some (.jstr s, rest) := by
  have h : strLit s ++ rest = '"' :: (escChars s ++ ('"' :: rest)) := by
    simp [strLit]
  rw [h, scanValue_quote, scanString_strLit]

theorem scanValue_headNum (f : Nat) (c : Char) (t : List Char)
    (hws : isJsonWs c = false) (hn : c ≠ 'n') (ht : c ≠ 't') (hf : c ≠ 'f')
    (hq : c ≠ '"') (hbk : c ≠ '[') (hbc : c ≠ '{') (hnum : c = '-' ∨ isDecDigit c) :
    scanValue (f + 1) (c :: t)
      = (match scanInt (c :: t) with
         | some (n, r) => some (.jint n, r)
         | none => none) := by
  rw [scanValue, dropWs_nws t hws]
  simp [hn, ht, hf, hq, hbk, hbc, hnum]

theorem decDigit_ne {c : Char} (h : isDecDigit c = true) (d : Char)
    (hd : isDecDigit d = false) : c ≠ d := fun he => by
  subst he
  rw [h] at hd
  exact Bool.noConfusion hd

theorem decDigit_not_ws {c : Char} (h : isDecDigit c = true) : isJsonWs c = false := by
  have h1 : c ≠ ' ' := decDigit_ne h ' ' (by decide)
  have h2 : c ≠ '\t' := decDigit_ne h '\t' (by decide)
  have h3 : c ≠ '\n' := decDigit_ne h '\n' (by decide)
  have h4 : c ≠ '\r' := decDigit_ne h '\r' (by decide)
  simp [isJsonWs, h1, h2, h3, h4]

theorem scanValue_jint (f : Nat) (i : Int) (rest : List Char)
    (hr : digitFree rest = true) :
    scanValue (f + 1) (intChars i ++ rest) = some (.jint i, rest) := by
  have hscan := scanInt_intChars i rest hr
  by_cases hneg : i < 0
  · have harg : intChars i ++ rest = '-' :: (natChars i.natAbs ++ rest) := by
      simp [intChars, hneg]
    rw [harg, scanValue_headNum f '-' _ (by decide) (by decide) (by decide) (by decide)
      (by decide) (by decide) (by decide) (Or.inl rfl)]
    rw [harg] at hscan
    simp [hscan]
  · have harg : intChars i ++ rest = natChars i.natAbs ++ rest := by
      simp [intChars, hneg]
    obtain ⟨c, t, hct, hdig⟩ : ∃ c t, natChars i.natAbs = c :: t ∧ isDecDigit c = true := by
      match h : natChars i.natAbs with
      | [] => exact absurd h (natChars_ne_nil _)
      | c :: t => exact ⟨c, t, rfl, natChars_digits _ c (h ▸ List.mem_cons_self ..)⟩
    rw [harg, hct, List.cons_append,
      scanValue_headNum f c _ (decDigit_not_ws hdig) (decDigit_ne hdig 'n' (by decide))
        (decDigit_ne hdig 't' (by decide)) (decDigit_ne hdig 'f' (by decide))
        (decDigit_ne hdig '"' (by decide)) (decDigit_ne hdig '[' (by decide))
        (decDigit_ne hdig '{' (by decide)) (Or.inr hdig)]
    rw [harg, hct, List.cons_append] at hscan
    simp [hscan]

/-! ## The canonical record text -/

/-- The member list of a schema-conforming record, in sorted key order —
what `json.loads` recovers from the canonical encoding. -/
def recordMembers (cc : Int) (hh : String) (hp pd : Int) (sn tt tv : String) :
    List (String × JValue) :=
  [("cell_count", .jint cc), ("http_host", .jstr hh), ("http_port", .jint hp),
   ("pid", .jint pd), ("station_name", .jstr sn), ("test_type", .jstr tt),
   ("test_version", .jstr tv)]

/-- One rendered member line: newline, four spaces, quoted key, `: `, value
text, then the rest of the document. -/
def memberText (k : String) (valText tail : List Char) : List Char :=
  '\n' :: (' ' :: (' ' :: (' ' :: (' ' :: (strLit k ++ (':' :: (' ' :: (valText ++ tail))))))))

/-- The canonical encoding of a schema-conforming record, as characters. -/
def recordChars (cc : Int) (hh : String) (hp pd : Int) (sn tt tv : String) : List Char :=
  '{' :: memberText "cell_count" (intChars cc)
    (',' :: memberText "http_host" (strLit hh)
    (',' :: memberText "http_port" (intChars hp)
    (',' :: memberText "pid" (intChars pd)
    (',' :: memberText "station_name" (strLit sn)
    (',' :: memberText "test_type" (strLit tt)
    (',' :: memberText "test_version" (strLit tv)
    ('\n' :: ['}'])))))))

theorem dropWs_memberText (k : String) (valText tail : List Char) :
    dropWs (memberText k valText tail)
      = '"' :: (escChars k ++ ('"' :: (':' :: (' ' :: (valText ++ tail))))) := by
  simp [memberText, dropWs, isJsonWs, strLit]

/-- One member parses off: key literal, colon, space, then the value text.
`X` is the value text and everything after it. -/
theorem scanMembers_member (f : Nat) (k : String) (X : List Char) :
    scanMembers (f + 1) ('"' :: (escChars k ++ ('"' :: (':' :: (' ' :: X)))))
      = (match scanValue f (' ' :: X) with
         | none => none
         | some (v, r3) =>
           match dropWs r3 with
           | [] => none
           | c3 :: r4 =>
             if c3 = ',' then
               match scanMembers f r4 with
               | some (ms, r5) => some ((k, v) :: ms, r5)
               | none => none
             else if c3 = '}' then some ([(k, v)], r4)
             else none) := by
  have hkey := scanString_strLit k (':' :: (' ' :: X))
  rw [scanMembers, dropWs_nws _ (by decide : isJsonWs '"' = false)]
  simp only [hkey, dropWs_nws (' ' :: X) (by decide : isJsonWs ':' = false),
    if_pos rfl, if_true]

/-- The `memberText` form of `scanMembers_member`: a member preceded by its
newline-and-indent. -/
theorem scanMembers_memberText (f : Nat) (k : String) (val tail : List Char) :
    scanMembers (f + 1) (memberText k val tail)
      = (match scanValue f (' ' :: (val ++ tail)) with
         | none => none
         | some (v, r3) =>
           match dropWs r3 with
           | [] => none
           | c3 :: r4 =>
             if c3 = ',' then
               match scanMembers f r4 with
               | some (ms, r5) => some ((k, v) :: ms, r5)
               | none => none
             else if c3 = '}' then some ([(k, v)], r4)
             else none) := by
  have hkey := scanString_strLit k (':' :: (' ' :: (val ++ tail)))
  rw [scanMembers, dropWs_memberText]
  simp only [hkey, dropWs_nws (' ' :: (val ++ tail)) (by decide : isJsonWs ':' = false),
    if_pos rfl, if_true]

theorem dropWs_quote (l : List Char) : dropWs ('"' :: l) = '"' :: l :=
  dropWs_nws l (by decide)

theorem dropWs_comma (l : List Char) : dropWs (',' :: l) = ',' :: l :=
  dropWs_nws l (by decide)

theorem digitFree_comma (l : List Char) : digitFree (',' :: l) = true := rfl

theorem digitFree_nl (l : List Char) : digitFree ('\n' :: l) = true := rfl

theorem scanValue_space (g : Nat) (X : List Char) :
    scanValue (g + 1) (' ' :: X) = scanValue (g + 1) X := by
  rw [scanValue, scanValue, show dropWs (' ' :: X) = dropWs X by simp [dropWs, isJsonWs]]

/-- Scanning the canonical record text yields exactly the seven members in
sorted key order, with nothing left over. -/
theorem scanValue_record (f : Nat) (cc hp pd : Int) (hh sn tt tv : String) :
    scanValue (f + 15) (recordChars cc hh hp pd sn tt tv)
      = some (.jobj (pairsToDict (recordMembers cc hh hp pd sn tt tv)), []) := by
  rw [recordChars, scanValue, dropWs_nws _ (by decide : isJsonWs '{' = false)]
  simp [scanMembers_member, scanMembers_memberText, scanValue_space, scanValue_jint,
    scanValue_jstr, dropWs_quote, dropWs_comma, digitFree_comma, digitFree_nl,
    dropWs, isJsonWs, recordMembers]

/-- The scanned member pairs of a record are already a dict: the seven keys
are distinct, so `pairsToDict` keeps them as they are. -/
theorem pairsToDict_record (cc hp pd : Int) (hh sn tt tv : String) :
    pairsToDict (recordMembers cc hh hp pd sn tt tv)
      = recordMembers cc hh hp pd sn tt tv := by
  simp [pairsToDict, recordMembers, dictSet]

theorem recordChars_length (cc hp pd : Int) (hh sn tt tv : String) :
    13 ≤ (recordChars cc hh hp pd sn tt tv).length := by
  simp [recordChars, memberText, strLit]
  omega

/-- `json.loads` of the canonical record text. -/
theorem jsonLoads_record (cc hp pd : Int) (hh sn tt tv : String) :
    jsonLoads (String.mk (recordChars cc hh hp pd sn tt tv))
      = some (.jobj (recordMembers cc hh hp pd sn tt tv)) := by
  have hlen := recordChars_length cc hp pd hh sn tt tv
  have hfuel : 2 * (String.mk (recordChars cc hh hp pd sn tt tv)).data.length + 2
      = (2 * (recordChars cc hh hp pd sn tt tv).length - 13) + 15 := by
    show 2 * (recordChars cc hh hp pd sn tt tv).length + 2 = _
    omega
  rw [jsonLoads, hfuel]
  show (match scanValue _ (recordChars cc hh hp pd sn tt tv) with
    | some (v, rest) => if dropWs rest = [] then some v else none
    | none => none) = _
  rw [scanValue_record, pairsToDict_record]
  simp [dropWs]

/-- `RunData(**d)` on the seven scanned members reconstructs the record. -/
theorem fromDict_record (cc hp pd : Int) (hh sn tt tv : String) :
    RunData.fromDict (recordMembers cc hh hp pd sn tt tv)
      = .ok ⟨.jstr sn, .jint cc, .jstr tt, .jstr tv, .jstr hh, .jint hp, .jint pd⟩ := rfl

/-- The canonical encoding of a schema-conforming record is exactly the
`recordChars` layout. -/
theorem asJson_record (cc hp pd : Int) (hh sn tt tv : String) :
    RunData.AsJson ⟨.jstr sn, .jint cc, .jstr tt, .jstr tv, .jstr hh, .jint hp, .jint pd⟩
      = String.mk (recordChars cc hh hp pd sn tt tv) := by
  have hsort : sortMems (dictSet (RunData.asdict
        ⟨.jstr sn, .jint cc, .jstr tt, .jstr tv, .jstr hh, .jint hp, .jint pd⟩)
        "http_host" (.jstr hh))
      = recordMembers cc hh hp pd sn tt tv := rfl
  rw [RunData.AsJson, jsonDumps]
  show String.mk (dumpsVal 0 (.jobj (dictSet (RunData.asdict
        ⟨.jstr sn, .jint cc, .jstr tt, .jstr tv, .jstr hh, .jint hp, .jint pd⟩)
        "http_host" (.jstr hh)))) = _
  congr 1
  rw [dumpsVal]
  simp only [hsort]
  simp [dumpsMems, dumpsMemsTail, dumpsVal, recordMembers, recordChars, memberText,
    nlIndent, indentSp, strLit, List.replicate]
  simp [RunData.asdict, dictSet]

/-- The codec round trip on schema-conforming records. -/
theorem fromJsonText_asJson (cc hp pd : Int) (hh sn tt tv : String) :
    RunData.fromJsonText (RunData.AsJson
        ⟨.jstr sn, .jint cc, .jstr tt, .jstr tv, .jstr hh, .jint hp, .jint pd⟩)
      = .ok ⟨.jstr sn, .jint cc, .jstr tt, .jstr tv, .jstr hh, .jint hp, .jint pd⟩ := by
  rw [asJson_record]
  simp [RunData.fromJsonText, jsonLoads_record, fromDict_record]

/-! ## Decode characterization (strict field matching) -/

theorem dictGet_isSome_iff (kvs : List (String × JValue)) (k : String) :
    (dictGet kvs k).isSome = true ↔ k ∈ kvs.map Prod.fst := by
  induction kvs with
  | nil => simp [dictGet]
  | cons hd tl ih =>
    by_cases h : hd.1 = k
    · simp [dictGet, h]
    · simp only [dictGet, List.map_cons, List.mem_cons]
      rw [if_neg h, ih]
      constructor
      · exact Or.inr
      · rintro (h1 | hm)
        · exact absurd h1.symm h
        · exact hm

theorem contains_runDataFields (k : String) :
    runDataFields.contains k = true ↔ k ∈ runDataFields := by
  simp [List.contains_iff_exists_mem_beq, beq_iff_eq]

/-- `RunData(**d)` succeeds exactly when the key set of `d` is exactly the
seven field names. -/
theorem fromDict_ok_iff (kvs : List (String × JValue)) :
    (∃ r, RunData.fromDict kvs = .ok r)
      ↔ (∀ k, k ∈ kvs.map Prod.fst ↔ k ∈ runDataFields) := by
  constructor
  · rintro ⟨r, hr⟩ k
    rw [RunData.fromDict] at hr
    split at hr
    · rename_i sn cc tt tv hh hp pd hsn hcc htt htv hhh hhp hpd
      split at hr
      · rename_i hall
        constructor
        · intro hk
          obtain ⟨⟨k', v⟩, hmem, hk'⟩ := List.mem_map.1 hk
          subst hk'
          have := List.all_eq_true.1 hall _ hmem
          exact (contains_runDataFields _).1 this
        · intro hk
          simp only [runDataFields, List.mem_cons, List.mem_singleton] at hk
          rcases hk with rfl | rfl | rfl | rfl | rfl | rfl | rfl | h
          · exact (dictGet_isSome_iff kvs _).1 (by rw [hsn]; rfl)
          · exact (dictGet_isSome_iff kvs _).1 (by rw [hcc]; rfl)
          · exact (dictGet_isSome_iff kvs _).1 (by rw [htt]; rfl)
          · exact (dictGet_isSome_iff kvs _).1 (by rw [htv]; rfl)
          · exact (dictGet_isSome_iff kvs _).1 (by rw [hhh]; rfl)
          · exact (dictGet_isSome_iff kvs _).1 (by rw [hhp]; rfl)
          · exact (dictGet_isSome_iff kvs _).1 (by rw [hpd]; rfl)
          · simp at h
      · exact absurd hr (by simp)
    · exact absurd hr (by simp)
  · intro hkeys
    have hsome : ∀ k, k ∈ runDataFields → (dictGet kvs k).isSome = true := fun k hk =>
      (dictGet_isSome_iff kvs k).2 ((hkeys k).2 hk)
    have hsn := Option.isSome_iff_exists.1 (hsome "station_name" (by simp [runDataFields]))
    have hcc := Option.isSome_iff_exists.1 (hsome "cell_count" (by simp [runDataFields]))
    have htt := Option.isSome_iff_exists.1 (hsome "test_type" (by simp [runDataFields]))
    have htv := Option.isSome_iff_exists.1 (hsome "test_version" (by simp [runDataFields]))
    have hhh := Option.isSome_iff_exists.1 (hsome "http_host" (by simp [runDataFields]))
    have hhp := Option.isSome_iff_exists.1 (hsome "http_port" (by simp [runDataFields]))
    have hpd := Option.isSome_iff_exists.1 (hsome "pid" (by simp [runDataFields]))
    obtain ⟨vsn, hsn⟩ := hsn
    obtain ⟨vcc, hcc⟩ := hcc
    obtain ⟨vtt, htt⟩ := htt
    obtain ⟨vtv, htv⟩ := htv
    obtain ⟨vhh, hhh⟩ := hhh
    obtain ⟨vhp, hhp⟩ := hhp
    obtain ⟨vpd, hpd⟩ := hpd
    refine ⟨⟨vsn, vcc, vtt, vtv, vhh, vhp, vpd⟩, ?_⟩
    rw [RunData.fromDict, hsn, hcc, htt, htv, hhh, hhp, hpd]
    simp only [List.all_eq_true]
    rw [if_pos]
    intro x hx
    exact (contains_runDataFields _).2 ((hkeys x.1).1 (List.mem_map.2 ⟨x, hx, rfl⟩))

/-! ## Filesystem and enumeration lemmas -/

theorem findEntry_writeEntry_self (d : FsDir) (name content : String) :
    findEntry (writeEntry d name content) name = some (.file content) := by
  induction d with
  | nil => simp [writeEntry, findEntry]
  | cons hd tl ih =>
    by_cases h : hd.1 = name
    · obtain ⟨n, e⟩ := hd
      simp only at h
      simp [writeEntry, findEntry, h]
    · obtain ⟨n, e⟩ := hd
      simp only at h
      simp [writeEntry, findEntry, h, ih]

theorem findEntry_writeEntry_ne (d : FsDir) (name content other : String)
    (h : other ≠ name) :
    findEntry (writeEntry d name content) other = findEntry d other := by
  have h' : name ≠ other := fun he => h he.symm
  induction d with
  | nil => simp [writeEntry, findEntry, h']
  | cons hd tl ih =>
    obtain ⟨n, e⟩ := hd
    by_cases hn : n = name
    · subst hn
      simp [writeEntry, findEntry, h']
    · simp only [writeEntry, findEntry, if_neg hn]
      by_cases ho : n = other
      · simp [findEntry, ho]
      · simp [findEntry, ho, ih]

/-- The records of the regular files that decode, in listing order. -/
def loadedRecords : FsDir → List RunData
  | [] => []
  | (_, .subdir) :: tl => loadedRecords tl
  | (_, .file content) :: tl =>
    match RunData.fromJsonText content with
    | .ok r => r :: loadedRecords tl
    | .error _ => loadedRecords tl

/-- The error of the first regular file (in listing order) that fails to
decode, if any. -/
def firstLoadFailure : FsDir → Option PyErr
  | [] => none
  | (_, .subdir) :: tl => firstLoadFailure tl
  | (_, .file content) :: tl =>
    match RunData.fromJsonText content with
    | .ok _ => firstLoadFailure tl
    | .error e => some e

/-- Count of regular-file children. -/
def regularFileCount (d : FsDir) : Nat :=
  d.countP fun p => match p.2 with | .file _ => true | .subdir => false

/-- When every regular file decodes, enumeration returns one record per
regular file, in listing order. -/
theorem enumerate_all_ok (d : FsDir)
    (h : ∀ name c, (name, FsEntry.file c) ∈ d → (RunData.fromJsonText c).isOk = true) :
    EnumerateRunDirectory d = .ok (loadedRecords d)
      ∧ (loadedRecords d).length = regularFileCount d := by
  induction d with
  | nil => simp [EnumerateRunDirectory, loadedRecords, regularFileCount]
  | cons hd tl ih =>
    obtain ⟨n, e⟩ := hd
    have htl := ih fun name c hm => h name c (List.mem_cons_of_mem _ hm)
    cases e with
    | subdir =>
      simpa [EnumerateRunDirectory, loadedRecords, regularFileCount, List.countP_cons]
        using htl
    | file content =>
      have hc := h n content (List.mem_cons_self ..)
      obtain ⟨r, hr⟩ : ∃ r, RunData.fromJsonText content = .ok r := by
        cases hcc : RunData.fromJsonText content with
        | ok r => exact ⟨r, rfl⟩
        | error e => rw [hcc] at hc; exact absurd hc (by simp [Except.isOk, Except.toBool])
      simp [EnumerateRunDirectory, loadedRecords, regularFileCount, hr, htl.1, htl.2,
        List.countP_cons]

/-- Fail-fast: the first failing file's error aborts the whole enumeration. -/
theorem enumerate_first_failure (d : FsDir) (e : PyErr)
    (h : firstLoadFailure d = some e) :
    EnumerateRunDirectory d = .error e := by
  induction d with
  | nil => simp [firstLoadFailure] at h
  | cons hd tl ih =>
    obtain ⟨n, en⟩ := hd
    cases en with
    | subdir =>
      rw [firstLoadFailure] at h
      exact ih h
    | file content =>
      rw [firstLoadFailure] at h
      rw [EnumerateRunDirectory]
      cases hc : RunData.fromJsonText content with
      | ok r =>
        rw [hc] at h
        simp only at h
        rw [ih h]
      | error e' =>
        rw [hc] at h
        simp only [Option.some.injEq] at h
        subst h
        rfl

/-- A failing regular file somewhere in the directory means some first
failure exists. -/
theorem exists_firstLoadFailure (d : FsDir)
    (h : ∃ p ∈ d, ∃ c, p.2 = FsEntry.file c ∧ (RunData.fromJsonText c).isOk = false) :
    ∃ e, firstLoadFailure d = some e := by
  induction d with
  | nil => simp at h
  | cons hd tl ih =>
    obtain ⟨n, en⟩ := hd
    cases en with
    | subdir =>
      rw [firstLoadFailure]
      apply ih
      obtain ⟨p, hp, c, hpc, hfail⟩ := h
      rcases List.mem_cons.1 hp with rfl | hp'
      · simp at hpc
      · exact ⟨p, hp', c, hpc, hfail⟩
    | file content =>
      rw [firstLoadFailure]
      cases hc : RunData.fromJsonText content with
      | error e => exact ⟨e, rfl⟩
      | ok r =>
        simp only
        apply ih
        obtain ⟨p, hp, c, hpc, hfail⟩ := h
        rcases List.mem_cons.1 hp with rfl | hp'
        · simp only at hpc
          rw [FsEntry.file.injEq] at hpc
          subst hpc
          rw [hc] at hfail
          exact absurd hfail (by simp [Except.isOk, Except.toBool])
        · exact ⟨p, hp', c, hpc, hfail⟩

/-! ## Shared helpers for the claims -/

/-- `SaveToFile` on a string-named record whose target is not a directory:
it writes the canonical encoding under the station name and returns the
joined path. -/
theorem saveToFile_ok (r : RunData) (directory : String) (d : FsDir) (name : String)
    (hname : r.station_name = .jstr name)
    (hnotdir : findEntry d name ≠ some FsEntry.subdir) :
    RunData.SaveToFile r directory d
      = .ok (osPathJoin directory name, writeEntry d name r.AsJson) := by
  obtain ⟨sn, cc, tt, tv, hh, hp, pd⟩ := r
  simp only at hname
  subst hname
  cases hf : findEntry d name with
  | none => simp [RunData.SaveToFile, hf]
  | some e =>
    cases e with
    | file c => simp [RunData.SaveToFile, hf]
    | subdir => exact absurd hf hnotdir

/-- The decimal text of a Python `int`, as `json.dumps` renders it. -/
def intStr (i : Int) : String := String.mk (intChars i)

/-- The quoted, escaped JSON string-literal text of a Python `str`. -/
def jsonStrLit (s : String) : String := String.mk (strLit s)

/-- Station-name order used to state "sorted by filename ascending". -/
def stationLeB : JValue → JValue → Bool
  | .jstr a, .jstr b => !pyStrLt b a
  | _, _ => false

/-- Whether a record sequence is sorted by station name ascending. -/
def sortedByStation : List RunData → Bool
  | [] => true
  | [_] => true
  | r1 :: r2 :: tl => stationLeB r1.station_name r2.station_name && sortedByStation (r2 :: tl)

/-- A valid record file for station "a". -/
def exRecordTextA : String :=
  "\x7b\"station_name\": \"a\", \"cell_count\": 1, \"test_type\": \"t\", \"test_version\": \"v\", \"http_host\": \"h\", \"http_port\": 2, \"pid\": 3\x7d"

/-- A valid record file for station "b". -/
def exRecordTextB : String :=
  "\x7b\"station_name\": \"b\", \"cell_count\": 1, \"test_type\": \"t\", \"test_version\": \"v\", \"http_host\": \"h\", \"http_port\": 2, \"pid\": 3\x7d"

/-- The record encoded in `exRecordTextA`. -/
def exRecA : RunData := ⟨.jstr "a", .jint 1, .jstr "t", .jstr "v", .jstr "h", .jint 2, .jint 3⟩

/-- The record encoded in `exRecordTextB`. -/
def exRecB : RunData := ⟨.jstr "b", .jint 1, .jstr "t", .jstr "v", .jstr "h", .jint 2, .jint 3⟩

/-- A directory listing "b" before "a", plus a subdirectory. -/
def exDirBA : FsDir :=
  [("b", .file exRecordTextB), ("a", .file exRecordTextA), ("not-a-file", .subdir)]

/-- A directory listing "a" before "b", plus a subdirectory. -/
def exDirAB : FsDir :=
  [("a", .file exRecordTextA), ("b", .file exRecordTextB), ("not-a-file", .subdir)]

/-- A directory with one valid record file and one malformed file. -/
def exDirBad : FsDir := [("a", .file exRecordTextA), ("bad", .file "not json")]

/-! ## The claims -/

/-- C1: for every valid RunRecord — the seven fields holding the documented
string and integer values — decoding the canonical encoding yields a record
equal to the original: `decode (encode r) = r`. -/
theorem claim_C1_roundtrip (cc hp pd : Int) (hh sn tt tv : String) :
    RunData.fromJsonText (RunData.AsJson
        ⟨.jstr sn, .jint cc, .jstr tt, .jstr tv, .jstr hh, .jint hp, .jint pd⟩)
      = .ok ⟨.jstr sn, .jint cc, .jstr tt, .jstr tv, .jstr hh, .jint hp, .jint pd⟩ :=
  fromJsonText_asJson cc hp pd hh sn tt tv

/-- C2: decode fails with the JSON decode error when the text is not valid
JSON; fails with `TypeError` when the parsed value is not an object; and on
an object it succeeds exactly when the key set equals the seven field names —
only the key set matters, so source-text key order is irrelevant. -/
theorem claim_C2_strict_decode (s : String) :
    (jsonLoads s = none → RunData.fromJsonText s = .error .jsonDecodeError)
    ∧ (∀ v, jsonLoads s = some v → (∀ kvs, v ≠ .jobj kvs) →
        RunData.fromJsonText s = .error .typeError)
    ∧ (∀ kvs, jsonLoads s = some (.jobj kvs) →
        ((∃ r, RunData.fromJsonText s = .ok r)
          ↔ ∀ k, k ∈ kvs.map Prod.fst ↔ k ∈ runDataFields)) := by
  refine ⟨?_, ?_, ?_⟩
  · intro h
    rw [RunData.fromJsonText, h]
  · intro v hv hno
    rw [RunData.fromJsonText, hv]
    cases v with
    | jobj kvs => exact absurd rfl (hno kvs)
    | jnull => rfl
    | jbool b => rfl
    | jint n => rfl
    | jstr s => rfl
    | jarr l => rfl
  · intro kvs hv
    rw [RunData.fromJsonText, hv]
    exact fromDict_ok_iff kvs

/-- A seven-key record text whose keys are not in field-declaration order. -/
def exUnorderedText : String :=
  "\x7b\"pid\": 3, \"station_name\": \"s\", \"cell_count\": 1, \"test_type\": \"t\", \"test_version\": \"v\", \"http_host\": \"h\", \"http_port\": 2\x7d"

/-- C2 witness: a seven-key object whose keys appear in a different order
than the field declaration decodes successfully. -/
theorem claim_C2_witness :
    ∃ r, RunData.fromJsonText exUnorderedText = .ok r :=
  ((claim_C2_strict_decode exUnorderedText).2.2
    [("pid", .jint 3), ("station_name", .jstr "s"), ("cell_count", .jint 1),
     ("test_type", .jstr "t"), ("test_version", .jstr "v"), ("http_host", .jstr "h"),
     ("http_port", .jint 2)] rfl).mpr
    (by intro k; simp [runDataFields]; tauto)

set_option maxRecDepth 8192 in
/-- C3 counterexample: the code returns records in `os.listdir` order without
sorting, so for a directory that lists "b" before "a" the result is not
sorted by station name ascending, contradicting the claim. -/
theorem claim_C3_counterexample :
    EnumerateRunDirectory exDirBA = .ok [exRecB, exRecA]
      ∧ sortedByStation [exRecB, exRecA] = false :=
  ⟨rfl, rfl⟩

/-- C3 amended: when every regular-file child decodes, enumeration returns
exactly one record per regular file — child directories excluded — in the
directory's listing order (not sorted); it is deterministic for a fixed
listing order. -/
theorem claim_C3_listing_order (d : FsDir)
    (h : ∀ name c, (name, FsEntry.file c) ∈ d → (RunData.fromJsonText c).isOk = true) :
    EnumerateRunDirectory d = .ok (loadedRecords d)
      ∧ (loadedRecords d).length = regularFileCount d :=
  enumerate_all_ok d h

set_option maxRecDepth 8192 in
/-- C3 amended, witness: a directory with valid files "a", "b" and a
subdirectory yields exactly the two records, in listing order. -/
theorem claim_C3_listing_order_witness :
    EnumerateRunDirectory exDirAB = .ok [exRecA, exRecB]
      ∧ (loadedRecords exDirAB).length = regularFileCount exDirAB := by
  have h := claim_C3_listing_order exDirAB (by
    intro name c hm
    simp only [exDirAB, List.mem_cons, List.not_mem_nil, or_false, Prod.mk.injEq] at hm
    rcases hm with ⟨-, hc⟩ | ⟨-, hc⟩ | ⟨-, hc⟩
    · cases hc; rfl
    · cases hc; rfl
    · cases hc)
  exact ⟨h.1.trans (by rfl), h.2⟩

/-- C4: if at least one regular-file child fails to decode, the whole
enumeration fails with the error of the first failing file in listing order,
and no record list is produced. -/
theorem claim_C4_failfast (d : FsDir)
    (h : ∃ p ∈ d, ∃ c, p.2 = FsEntry.file c ∧ (RunData.fromJsonText c).isOk = false) :
    ∃ e, EnumerateRunDirectory d = .error e ∧ firstLoadFailure d = some e := by
  obtain ⟨e, he⟩ := exists_firstLoadFailure d h
  exact ⟨e, enumerate_first_failure d e he, he⟩

/-- C4 witness: one valid file plus one malformed file make the enumeration
fail even though the valid file would have loaded. -/
theorem claim_C4_witness :
    ∃ e, EnumerateRunDirectory exDirBad = .error e ∧ firstLoadFailure exDirBad = some e :=
  claim_C4_failfast exDirBad
    ⟨("bad", .file "not json"), by simp [exDirBad], "not json", rfl, rfl⟩

/-- C5: the canonical encoding of every RunRecord is a JSON object text with
the keys in sorted order (cell_count, http_host, http_port, pid,
station_name, test_type, test_version), 4-space indentation, one key-value
pair per line, and separators rendered exactly as `,` and `: `. -/
theorem claim_C5_layout (cc hp pd : Int) (hh sn tt tv : String) :
    RunData.AsJson ⟨.jstr sn, .jint cc, .jstr tt, .jstr tv, .jstr hh, .jint hp, .jint pd⟩
      = "\x7b\n    \"cell_count\": " ++ intStr cc
      ++ ",\n    \"http_host\": " ++ jsonStrLit hh
      ++ ",\n    \"http_port\": " ++ intStr hp
      ++ ",\n    \"pid\": " ++ intStr pd
      ++ ",\n    \"station_name\": " ++ jsonStrLit sn
      ++ ",\n    \"test_type\": " ++ jsonStrLit tt
      ++ ",\n    \"test_version\": " ++ jsonStrLit tv
      ++ "\n\x7d" := by
  rw [asJson_record]
  apply String.ext
  simp only [String.data_append]
  simp [recordChars, memberText, strLit, nlIndent, indentSp, intStr, jsonStrLit,
    List.replicate,
    show escChars "cell_count" = "cell_count".data from rfl,
    show escChars "http_host" = "http_host".data from rfl,
    show escChars "http_port" = "http_port".data from rfl,
    show escChars "pid" = "pid".data from rfl,
    show escChars "station_name" = "station_name".data from rfl,
    show escChars "test_type" = "test_type".data from rfl,
    show escChars "test_version" = "test_version".data from rfl]

/-- C6: saving writes the canonical encoding to exactly the path obtained by
joining the directory with the station name, overwriting any existing file
there and leaving every other entry unchanged, and returns that path. -/
theorem claim_C6_save (r : RunData) (directory : String) (d : FsDir) (name : String)
    (hname : r.station_name = .jstr name)
    (hnotdir : findEntry d name ≠ some FsEntry.subdir) :
    RunData.SaveToFile r directory d
        = .ok (osPathJoin directory name, writeEntry d name r.AsJson)
      ∧ findEntry (writeEntry d name r.AsJson) name = some (.file r.AsJson)
      ∧ ∀ other, other ≠ name →
          findEntry (writeEntry d name r.AsJson) other = findEntry d other :=
  ⟨saveToFile_ok r directory d name hname hnotdir,
   findEntry_writeEntry_self d name r.AsJson,
   fun o ho => findEntry_writeEntry_ne d name r.AsJson o ho⟩

/-- C6 witness: saving the station-"a" record into an empty run directory;
the unrelated name "b" is untouched. -/
theorem claim_C6_save_witness :
    RunData.SaveToFile exRecA "/var/run/openhtf" []
        = .ok (osPathJoin "/var/run/openhtf" "a", writeEntry [] "a" exRecA.AsJson)
      ∧ findEntry (writeEntry [] "a" exRecA.AsJson) "a" = some (.file exRecA.AsJson)
      ∧ findEntry (writeEntry [] "a" exRecA.AsJson) "b" = findEntry [] "b" := by
  have h := claim_C6_save exRecA "/var/run/openhtf" [] "a" rfl (by simp [findEntry])
  exact ⟨h.1, h.2.1, h.2.2 "b" (by decide)⟩

/-- C7: loading the file that save wrote yields a record equal to the one
saved: `load (save r dir) = r` for every valid record and directory state
without a directory squatting on the target name. -/
theorem claim_C7_save_load (cc hp pd : Int) (hh sn tt tv : String)
    (directory : String) (d : FsDir)
    (hnotdir : findEntry d sn ≠ some FsEntry.subdir) :
    ∃ path d2,
      RunData.SaveToFile
          ⟨.jstr sn, .jint cc, .jstr tt, .jstr tv, .jstr hh, .jint hp, .jint pd⟩
          directory d
        = .ok (path, d2)
      ∧ RunData.FromFile d2 sn
          = .ok ⟨.jstr sn, .jint cc, .jstr tt, .jstr tv, .jstr hh, .jint hp, .jint pd⟩ := by
  refine ⟨osPathJoin directory sn,
    writeEntry d sn (RunData.AsJson
      ⟨.jstr sn, .jint cc, .jstr tt, .jstr tv, .jstr hh, .jint hp, .jint pd⟩),
    saveToFile_ok _ directory d sn rfl hnotdir, ?_⟩
  rw [RunData.FromFile, findEntry_writeEntry_self]
  exact fromJsonText_asJson cc hp pd hh sn tt tv

/-- C7 witness: save then load of the station-"a" record in an empty
directory. -/
theorem claim_C7_save_load_witness :
    ∃ path d2,
      RunData.SaveToFile exRecA "/var/run/openhtf" [] = .ok (path, d2)
      ∧ RunData.FromFile d2 "a" = .ok exRecA :=
  claim_C7_save_load 1 2 3 "h" "a" "t" "v" "/var/run/openhtf" [] (by simp [findEntry])

/-- C8: the liveness probe returns true when the record's pid is a live
process id and false when it is not; in the dead case the OS error from the
probe is swallowed into the boolean result, never raised. -/
theorem claim_C8_isalive (livePids : List Int) (r : RunData) (p : Int)
    (hp : r.pid = .jint p) :
    (p ∈ livePids → RunData.IsAlive livePids r = .ok true)
    ∧ (p ∉ livePids → RunData.IsAlive livePids r = .ok false) := by
  constructor <;> intro h <;> rw [RunData.IsAlive, hp] <;> simp [osKill, h]

/-- C8 witness: the station-"a" record (pid 3) probed against an OS where
pid 3 exists, and against one where no process exists. -/
theorem claim_C8_isalive_witness :
    RunData.IsAlive [3] exRecA = .ok true ∧ RunData.IsAlive [] exRecA = .ok false :=
  ⟨(claim_C8_isalive [3] exRecA 3 rfl).1 (by simp),
   (claim_C8_isalive [] exRecA 3 rfl).2 (by simp)⟩

/-- C9: the canonical encoding is deterministic — equal records produce
byte-identical output. -/
theorem claim_C9_determinism (r1 r2 : RunData) (h : r1 = r2) :
    r1.AsJson = r2.AsJson := by
  rw [h]

/-- C9 witness: the station-"a" record encoded twice. -/
theorem claim_C9_determinism_witness : exRecA.AsJson = exRecA.AsJson :=
  claim_C9_determinism exRecA exRecA rfl

/-- Modelled from the claim: serialize `_asdict()` directly — sorted keys,
4-space indent, `(',', ': ')` separators — with the `http_host` reassignment
line removed. -/
def RunData.asJsonNoReassign (r : RunData) : String := jsonDumps (.jobj r.asdict)

/-- C10: the reassignment `d['http_host'] = self.http_host` in `AsJson` is a
no-op — the output is byte-identical to serializing `_asdict()` directly. -/
theorem claim_C10_reassign_noop (r : RunData) : r.AsJson = r.asJsonNoReassign := rfl
